import Mathlib

/-!
# nkn-node-sampler: ring arithmetic, ring walker and estimator

A shallow embedding of `main.go`.  `*big.Int` values are `Int`, Go `int` values are `Int`
(wrapped to 64 bits where a single remote answer can overflow them), `uint64` values are
`Nat` reduced modulo `2^64`, strings are `String`.  The remote procedure calls and
`url.Parse` are the only parts that are not code of the program; they are fields of `Env`.
Code that reads the package variable `totalSpace` takes the ring size as the argument `R`;
statements about the program put `totalSpace` there, and a test ring puts its own size.
-/

namespace NknNodeSampler

/-! ## Ring key space -/

/-- The package variable `totalSpace = 2^256`. -/
def totalSpace : Int := 2 ^ 256

/-- The offset computed in the start-key loop of `main`:
`offset := totalSpace * i; offset.Div(offset, m)` (Euclidean division of `big.Int`). -/
def offset (R i m : Int) : Int := (R * i) / m

/-- The start key of the `i`-th walk in `main`:
`startKey := S + offset; startKey.Mod(startKey, totalSpace)`. -/
def startKey (R S i m : Int) : Int := (S + offset R i m) % R

/-- The covered-area computation at the end of `sampleNodes`:
`if startKey.Cmp(lastKey) > 0 then totalSpace - startKey + lastKey else lastKey - startKey`. -/
def forwardDistance (R startKey lastKey : Int) : Int :=
  if startKey > lastKey then R - startKey + lastKey else lastKey - startKey

/-! ## Conversions -/

/-- The method `(*big.Int).Int64`: the low 64 bits of the magnitude, read as a
two's-complement `int64`, negated (with wrap-around) when the argument is negative. -/
def toInt64 (x : Int) : Int :=
  let u : Int := (x.natAbs % 2 ^ 64 : Nat)
  let v : Int := if u < 2 ^ 63 then u else u - 2 ^ 64
  if x < 0 then (if v = -(2 ^ 63) then v else -v) else v

/-- Wrap-around of Go `int` (64 bit) addition results. -/
def wrapInt64 (x : Int) : Int :=
  (x + 2 ^ 63) % 2 ^ 64 - 2 ^ 63

/-! ## The `float64` square root used by the walker and the estimator

`math.Sqrt` is the correctly rounded IEEE-754 binary64 square root.  Its arguments in this
program are `float64(k)` for a Go `int` `k ≥ 0`, so the model works on natural numbers:
a float holding an integer is that integer, and the square root is returned as a
significand `q` and a scale `t`, standing for the value `q / 2^t`. -/

/-- Digit-by-digit integer square root: with `r = 0` and `n < 4^b` the result is
`⌊√n⌋`. -/
def isqrtAux : Nat → Nat → Nat → Nat
  | 0, _, r => r
  | b + 1, n, r =>
    if (r + 2 ^ b) * (r + 2 ^ b) ≤ n then isqrtAux b n (r + 2 ^ b) else isqrtAux b n r

/-- Number of binary digits of `n`, for `n < 2^fuel`. -/
def bitLenAux : Nat → Nat → Nat
  | 0, _ => 0
  | f + 1, n => if n = 0 then 0 else bitLenAux f (n / 2) + 1

/-- The conversion `float64(k)` of an integer `0 ≤ k < 2^64`: exact up to 53 bits,
round-to-nearest-even on the bits below the 53rd otherwise.  The result is the integer
the float holds. -/
def float64OfNat (k : Nat) : Nat :=
  let len := bitLenAux 64 k
  if len ≤ 53 then k
  else
    let sh := len - 53
    let m := k / 2 ^ sh
    let rest := k % 2 ^ sh
    let half := 2 ^ (sh - 1)
    let m1 := if half < rest ∨ (rest = half ∧ m % 2 = 1) then m + 1 else m
    m1 * 2 ^ sh

/-- The call `math.Sqrt(x)` on a float holding the integer `x ≤ 2^64`: the pair `(q, t)`
with `q / 2^t` the binary64 number nearest to `√x`.  `t` places `√x · 2^t` in
`[2^52, 2^53)`; `q0` is the floor of that product and is rounded up when the product
exceeds `q0 + 1/2` (a tie cannot occur for an integer `x`). -/
def float64Sqrt (x : Nat) : Nat × Nat :=
  let r := isqrtAux 33 x 0
  let t := 53 - bitLenAux 64 r
  let y := x * 4 ^ t
  let q0 := isqrtAux 53 y 0
  if q0 * q0 + q0 < y then (q0 + 1, t) else (q0, t)

/-- The expression `int64(math.Sqrt(float64(k)))` of `main` for a count `k ≥ 0`
(conversion to integer truncates).  A negative count gives NaN, whose conversion is
implementation-dependent; the model is used for non-negative counts only. -/
def sqrtInt64 (k : Int) : Int :=
  let f := float64Sqrt (float64OfNat k.toNat)
  ((f.1 / 2 ^ f.2 : Nat) : Int)

/-- The expression `int(2*math.Sqrt(float64(s)))` of `sampleNodes` for a length `s`
(doubling a float is exact). -/
def twoSqrtInt (s : Nat) : Int :=
  let f := float64Sqrt (float64OfNat s)
  ((2 * f.1 / 2 ^ f.2 : Nat) : Int)

/-! ## Estimator (the end of `main`) -/

/-- The value `estimatedTotalNodes` of `main`:
`Div(Mul(NewInt(int64(totalNodesVisited)), totalSpace), totalArea).Int64()`. -/
def estimatedTotalNodes (R totalNodesVisited totalArea : Int) : Int :=
  toInt64 ((totalNodesVisited * R) / totalArea)

/-- The value `uncertainty` of `main`:
`Div(Mul(NewInt(int64(math.Sqrt(float64(totalNodesVisited)))), totalSpace), totalArea).Int64()`. -/
def uncertainty (R totalNodesVisited totalArea : Int) : Int :=
  toInt64 ((sqrtInt64 totalNodesVisited * R) / totalArea)

/-- IEEE-754 class of a `float64`: the floating-point values of the report are followed
up to their class and sign, which is what decides whether `json.Marshal` accepts them.
`fin` is a finite non-zero number. -/
inductive FKind
  | nan
  | inf
  | zero
  | fin
deriving DecidableEq, Repr

/-- A `float64` up to class and sign (`neg = true` for a set sign bit). -/
structure F64 where
  kind : FKind
  neg : Bool
deriving DecidableEq, Repr

/-- The conversion `float64(k)` of an integer, up to class. -/
def F64.ofInt (k : Int) : F64 :=
  if k = 0 then ⟨FKind.zero, false⟩ else ⟨FKind.fin, decide (k < 0)⟩

/-- IEEE-754 multiplication on classes (the magnitudes of this program neither overflow
nor underflow: counters are below `2^64`). -/
def F64.mul (a b : F64) : F64 :=
  match a.kind, b.kind with
  | FKind.nan, _ => ⟨FKind.nan, false⟩
  | _, FKind.nan => ⟨FKind.nan, false⟩
  | FKind.inf, FKind.zero => ⟨FKind.nan, false⟩
  | FKind.zero, FKind.inf => ⟨FKind.nan, false⟩
  | FKind.inf, _ => ⟨FKind.inf, xor a.neg b.neg⟩
  | _, FKind.inf => ⟨FKind.inf, xor a.neg b.neg⟩
  | FKind.zero, _ => ⟨FKind.zero, xor a.neg b.neg⟩
  | _, FKind.zero => ⟨FKind.zero, xor a.neg b.neg⟩
  | FKind.fin, FKind.fin => ⟨FKind.fin, xor a.neg b.neg⟩

/-- IEEE-754 division on classes. -/
def F64.div (a b : F64) : F64 :=
  match a.kind, b.kind with
  | FKind.nan, _ => ⟨FKind.nan, false⟩
  | _, FKind.nan => ⟨FKind.nan, false⟩
  | FKind.inf, FKind.inf => ⟨FKind.nan, false⟩
  | FKind.zero, FKind.zero => ⟨FKind.nan, false⟩
  | FKind.inf, _ => ⟨FKind.inf, xor a.neg b.neg⟩
  | _, FKind.zero => ⟨FKind.inf, xor a.neg b.neg⟩
  | _, FKind.inf => ⟨FKind.zero, xor a.neg b.neg⟩
  | FKind.zero, _ => ⟨FKind.zero, xor a.neg b.neg⟩
  | FKind.fin, FKind.fin => ⟨FKind.fin, xor a.neg b.neg⟩

/-- The call `math.Log2(float64(k))`, up to class: NaN below zero, `-Inf` at zero,
zero at one, positive above. -/
def F64.log2OfInt (k : Int) : F64 :=
  if k < 0 then ⟨FKind.nan, false⟩
  else if k = 0 then ⟨FKind.inf, true⟩
  else if k = 1 then ⟨FKind.zero, false⟩
  else ⟨FKind.fin, false⟩

/-- A number that `json.Marshal` accepts: neither NaN nor an infinity. -/
def F64.isFinite (a : F64) : Bool :=
  match a.kind with
  | FKind.nan => false
  | FKind.inf => false
  | _ => true

deriving instance DecidableEq for Except

/-- The sums that `main` reads from its four channels. -/
structure Aggregate where
  totalNodesVisited : Int
  totalRelay : Nat
  totalUptime : Int
  totalArea : Int
deriving DecidableEq, Repr

/-- What the estimation step of `main` prints. -/
structure Report where
  estimatedTotalNodes : Int
  uncertainty : Int
  covered : F64
  estimatedRelayPerSecond : F64
deriving DecidableEq, Repr

/-- The expression `100 * float64(totalNodesVisited) / float64(estimatedTotalNodes)`. -/
def coveredPercent (visited est : Int) : F64 :=
  F64.div (F64.mul ⟨FKind.fin, false⟩ (F64.ofInt visited)) (F64.ofInt est)

/-- The expression `float64(totalRelay) / float64(totalUptime) * float64(estimatedTotalNodes)
/ (math.Log2(float64(estimatedTotalNodes)) / 2)`. -/
def relayPerSecond (relay : Nat) (uptime est : Int) : F64 :=
  F64.div (F64.mul (F64.div (F64.ofInt relay) (F64.ofInt uptime)) (F64.ofInt est))
    (F64.div (F64.log2OfInt est) ⟨FKind.fin, false⟩)

/-- The estimation step of `main`, from the zero-area check to the output.  `log.Fatal`
is the error result.  With `-json` the report goes through `json.Marshal`, which rejects
NaN and infinities; the text output prints whatever was computed. -/
def mainEstimate (R : Int) (jsFmt : Bool) (a : Aggregate) : Except String Report :=
  if a.totalArea = 0 then
    Except.error "Error: Total area covered is zero, cannot estimate total number of nodes."
  else
    let est := estimatedTotalNodes R a.totalNodesVisited a.totalArea
    let unc := uncertainty R a.totalNodesVisited a.totalArea
    let rps := relayPerSecond a.totalRelay a.totalUptime est
    let cov := coveredPercent a.totalNodesVisited est
    if jsFmt && !(cov.isFinite && rps.isFinite) then
      Except.error "json formatter error"
    else
      Except.ok ⟨est, unc, cov, rps⟩

/-! ## Hexadecimal text of keys -/

/-- The lower-case hexadecimal digit of `d < 16`. -/
def hexDigit (d : Nat) : Char :=
  if d < 10 then Char.ofNat (48 + d) else Char.ofNat (87 + d)

/-- Hexadecimal digits of `n`, most significant first, in front of `acc`. -/
def hexDigitsAux : Nat → Nat → List Char → List Char
  | 0, _, acc => acc
  | f + 1, n, acc =>
    if n < 16 then hexDigit n :: acc
    else hexDigitsAux f (n / 16) (hexDigit (n % 16) :: acc)

/-- The call `k.Text(16)` of `math/big`: lower-case digits without a prefix, a leading
`-` for a negative number. -/
def text16 (k : Int) : String :=
  if k < 0 then String.mk ('-' :: hexDigitsAux (k.natAbs + 1) k.natAbs [])
  else String.mk (hexDigitsAux (k.natAbs + 1) k.natAbs [])

/-- Value of a hexadecimal digit in either case. -/
def hexVal (c : Char) : Option Nat :=
  if 48 ≤ c.toNat ∧ c.toNat ≤ 57 then some (c.toNat - 48)
  else if 97 ≤ c.toNat ∧ c.toNat ≤ 102 then some (c.toNat - 87)
  else if 65 ≤ c.toNat ∧ c.toNat ≤ 70 then some (c.toNat - 55)
  else none

/-- Digit scanner of `math/big`: consumes the longest run of hexadecimal digits. -/
def scanHex : List Char → Nat → Nat
  | [], acc => acc
  | c :: cs, acc =>
    match hexVal c with
    | some d => scanHex cs (acc * 16 + d)
    | none => acc

/-- The value left in `lastKey` by `lastKey.SetString(lastID, 16)` on a fresh `big.Int`
(the program ignores the success flag): an optional sign followed by the digits that
were scanned, zero when there are none. -/
def setString16 (s : String) : Int :=
  match s.data with
  | [] => 0
  | c :: cs =>
    if c = '-' then -((scanHex cs 0 : Nat) : Int)
    else if c = '+' then ((scanHex cs 0 : Nat) : Int)
    else ((scanHex (c :: cs) 0 : Nat) : Int)

/-! ## Remote node query -/

/-- An entry of the `successors` or `predecessors` list of a `getchordringinfo` answer. -/
structure Peer where
  addr : String
  id : String
deriving DecidableEq, Repr

/-- The decoded `rpcChordRingInfoResponse`, without the `Result` and `LocalNode`
wrappers: `id`, `relayMessageCount` and `uptime` are the fields of `localNode`. -/
structure rpcChordRingInfoResponse where
  id : String
  relayMessageCount : Nat
  uptime : Int
  successors : List Peer
  predecessors : List Peer
deriving DecidableEq, Repr

/-- Outcome of `makeRPCRequest` followed by `json.Unmarshal`: the request failed, the
body could not be decoded, or a decoded answer. -/
inductive Reply (α : Type)
  | transportErr
  | undecodable
  | ok (a : α)
deriving DecidableEq, Repr

/-- Everything outside the program that a walk consults.  `getChordRingInfo i k a` is
the answer to the `getchordringinfo` request sent at hop `i` to the `k`-th candidate
address `a` (each request of a walk has its own `i` and `k`, so answers may change
from one request to the next). -/
structure Env where
  urlParseHost : String → Option String
  findSuccessorAddrs : String → String → Reply (List String)
  getChordRingInfo : Nat → Nat → String → Reply rpcChordRingInfoResponse

/-- The function `tcpAddrToRPCAddr`: the host of the parsed URL up to its first colon,
with the RPC port. -/
def tcpAddrToRPCAddr (env : Env) (tcpAddr : String) : Option String :=
  match env.urlParseHost tcpAddr with
  | none => none
  | some host => some ("http://" ++ String.mk (host.data.takeWhile (fun c => c != ':')) ++ ":30003")

/-! ## Ring walker (`sampleNodes`) -/

/-- The local variables of `sampleNodes` that live across hops.  `confirmed` is a
record of the answers that reached `lastID = chordRingResp.Result.LocalNode.ID`, in
order; the program does not consult it.  `nodesVisited` is not wrapped to 64 bits: a
hop adds at most the length of a predecessor list that was received and decoded. -/
structure WalkState where
  rpcAddresses : List String
  nodesVisited : Int
  lastID : String
  totalRelay : Nat
  totalUptime : Int
  confirmed : List rpcChordRingInfoResponse
deriving DecidableEq, Repr

/-- The five results of `sampleNodes`; `totalArea = none` is the `nil` pointer and
`err = none` the `nil` error. -/
structure WalkResult where
  nodesVisited : Int
  totalRelay : Nat
  totalUptime : Int
  totalArea : Option Int
  err : Option String
deriving DecidableEq, Repr

/-- The inner loop over `rpcAddresses`: requests are sent in order until one has no
transport error.  `none` means that every request failed (`err != nil` after the loop),
`some none` that the first answer received could not be decoded, `some (some r)` a
decoded answer. `k` is the position of the head of the list. -/
def queryCandidates (env : Env) (i : Nat) : Nat → List String → Option (Option rpcChordRingInfoResponse)
  | _, [] => none
  | k, a :: rest =>
    match env.getChordRingInfo i k a with
    | Reply.transportErr => queryCandidates env i (k + 1) rest
    | Reply.undecodable => some none
    | Reply.ok r => some (some r)

/-- The loop `for j, pred := range predecessors`: the first position whose `ID` equals
`lastID`, counted from `j`. -/
def findPrev (lastID : String) : List Peer → Nat → Option Nat
  | [], _ => none
  | p :: ps, j => if p.id = lastID then some j else findPrev lastID ps (j + 1)

/-- The choice of the next `rpcAddresses`: `mid := len(successors) -
int(2*math.Sqrt(float64(len(successors))))`, then the indices `mid-1, mid, mid+1` that
pass `index > 0 && index < len(successors)` and whose address parses. -/
def nextCandidates (env : Env) (successors : List Peer) : List String :=
  let s : Int := successors.length
  let mid : Int := s - twoSqrtInt successors.length
  [mid - 1, mid, mid + 1].filterMap (fun index =>
    if index > 0 ∧ index < s then
      match successors[index.toNat]? with
      | some p => tcpAddrToRPCAddr env p.addr
      | none => none
    else none)

/-- The part of the loop body after a decoded answer: the continuity check for `i > 0`,
the update of the counters, and the choice of the next candidates.  The flag tells
whether the loop goes on (`false` is a `break`). -/
def confirmHop (env : Env) (i : Nat) (st : WalkState) (r : rpcChordRingInfoResponse) : WalkState × Bool :=
  match (if i > 0 then findPrev st.lastID r.predecessors 0 else some 0) with
  | none => (st, false)
  | some j =>
    let st1 : WalkState :=
      { rpcAddresses := st.rpcAddresses
        nodesVisited := if i > 0 then st.nodesVisited + (j + 1) else st.nodesVisited
        lastID := r.id
        totalRelay := (st.totalRelay + r.relayMessageCount) % 2 ^ 64
        totalUptime := wrapInt64 (st.totalUptime + r.uptime)
        confirmed := st.confirmed ++ [r] }
    if r.successors.length < 1 then (st1, false)
    else
      let st2 : WalkState := { st1 with rpcAddresses := nextCandidates env r.successors }
      if st2.rpcAddresses.length = 0 then (st2, false) else (st2, true)

/-- One iteration of `for i := 0; i <= n; i++`. -/
def hopStep (env : Env) (i : Nat) (st : WalkState) : WalkState × Bool :=
  match queryCandidates env i 0 st.rpcAddresses with
  | none => (st, false)
  | some none => (st, false)
  | some (some r) => confirmHop env i st r

/-- The loop `for i := 0; i <= n; i++` with `fuel` iterations left. -/
def walkLoop (env : Env) : Nat → Nat → WalkState → WalkState
  | 0, _, st => st
  | fuel + 1, i, st =>
    match hopStep env i st with
    | (st1, true) => walkLoop env fuel (i + 1) st1
    | (st1, false) => st1

/-- The function `sampleNodes` up to the end of its loop: an error for the early
returns, the final loop state otherwise.  The loop runs `n + 1` times for `n ≥ 0` and
not at all for `n < 0`. -/
def sampleNodesState (env : Env) (startKey : Int) (initialRPCAddress : String) (n : Int) :
    Except String WalkState :=
  match env.findSuccessorAddrs initialRPCAddress (text16 startKey) with
  | Reply.transportErr => Except.error "Error making RPC request"
  | Reply.undecodable => Except.error "Error parsing findsuccessoraddrs response"
  | Reply.ok [] => Except.error "Error parsing findsuccessoraddrs response"
  | Reply.ok (firstAddr :: _) =>
    match tcpAddrToRPCAddr env firstAddr with
    | none => Except.error "Error parsing URL from successor address"
    | some a =>
      Except.ok (walkLoop env (n + 1).toNat 0
        { rpcAddresses := [a]
          nodesVisited := 1
          lastID := text16 startKey
          totalRelay := 0
          totalUptime := 0
          confirmed := [] })

/-- The function `sampleNodes`, with ring size `R` for `totalSpace`. -/
def sampleNodes (R : Int) (env : Env) (startKey : Int) (initialRPCAddress : String) (n : Int) :
    WalkResult :=
  match sampleNodesState env startKey initialRPCAddress n with
  | Except.error e => ⟨0, 0, 0, none, some e⟩
  | Except.ok st =>
    ⟨st.nodesVisited, st.totalRelay, st.totalUptime,
      some (forwardDistance R startKey (setString16 st.lastID)), none⟩

/-! ## Statement vocabulary -/

/-- Continuity between two consecutive confirmed answers: the identifier of the earlier
one occurs in the predecessor list of the later one. -/
def Linked (prev cur : rpcChordRingInfoResponse) : Prop :=
  prev.id ∈ cur.predecessors.map Peer.id

/-- Sum, over the confirmed answers after the first, of the 0-based position of the
first occurrence of the previous identifier in the predecessor list. -/
def skipSum : List rpcChordRingInfoResponse → Nat
  | [] => 0
  | [_] => 0
  | prev :: cur :: rest =>
    (cur.predecessors.map Peer.id).indexOf prev.id + skipSum (cur :: rest)

/-- The three indices `mid-1, mid, mid+1` around `mid`, in increasing order. -/
def midIndices (mid : Int) : List Int :=
  [mid - 1, mid, mid + 1]

/-- The successors a selection of indices stands for, as RPC addresses. -/
def addressesAt (env : Env) (successors : List Peer) (indices : List Int) : List (Option String) :=
  indices.map (fun i => (successors[i.toNat]?).bind (fun p => tcpAddrToRPCAddr env p.addr))

/-! ## Concrete rings used as examples -/

/-- URL host of the test addresses `tcp://<name>:30001`. -/
def testHost (a : String) : Option String :=
  if a = "tcp://n10:30001" then some "n10:30001"
  else if a = "tcp://n40:30001" then some "n40:30001"
  else if a = "tcp://n90:30001" then some "n90:30001"
  else if a = "tcp://nc0:30001" then some "nc0:30001"
  else if a = "tcp://nd0:30001" then some "nd0:30001"
  else if a = "tcp://ne0:30001" then some "ne0:30001"
  else none

/-- Answer of node `0x10` in the three-node ring. -/
def node10 : rpcChordRingInfoResponse :=
  ⟨"10", 7, 100, [⟨"tcp://n40:30001", "40"⟩], [⟨"tcp://n90:30001", "90"⟩]⟩

/-- Answer of node `0x40` in the three-node ring. -/
def node40 : rpcChordRingInfoResponse :=
  ⟨"40", 7, 100, [⟨"tcp://n90:30001", "90"⟩], [⟨"tcp://n10:30001", "10"⟩]⟩

/-- Answer of node `0x90` in the three-node ring. -/
def node90 : rpcChordRingInfoResponse :=
  ⟨"90", 7, 100, [⟨"tcp://n10:30001", "10"⟩], [⟨"tcp://n40:30001", "40"⟩]⟩

/-- Three nodes `0x10`, `0x40`, `0x90`, each with the next as sole successor and the
previous as sole predecessor; the entry node resolves every key to node `0x10`. -/
def ring3Env : Env where
  urlParseHost := testHost
  findSuccessorAddrs := fun _ _ => Reply.ok ["tcp://n10:30001"]
  getChordRingInfo := fun _ _ a =>
    if a = "http://n10:30003" then Reply.ok node10
    else if a = "http://n40:30003" then Reply.ok node40
    else if a = "http://n90:30003" then Reply.ok node90
    else Reply.transportErr

/-- An entry node that resolves the key, and a network on which no `getchordringinfo`
request gets through. -/
def deafEnv : Env where
  urlParseHost := testHost
  findSuccessorAddrs := fun _ _ => Reply.ok ["tcp://n10:30001"]
  getChordRingInfo := fun _ _ _ => Reply.transportErr

/-- Successor list of five nodes, used where a hop has two candidates. -/
def fiveSuccessors : List Peer :=
  [⟨"tcp://n40:30001", "40"⟩, ⟨"tcp://n90:30001", "90"⟩, ⟨"tcp://nc0:30001", "c0"⟩,
    ⟨"tcp://nd0:30001", "d0"⟩, ⟨"tcp://ne0:30001", "e0"⟩]

/-- Answer of node `0x10` with five successors. -/
def wide10 : rpcChordRingInfoResponse := ⟨"10", 7, 100, fiveSuccessors, []⟩

/-- Answer of node `0xc0`, which lists `0x10` among its predecessors. -/
def wideC0 : rpcChordRingInfoResponse :=
  ⟨"c0", 5, 60, fiveSuccessors, [⟨"tcp://n90:30001", "90"⟩, ⟨"tcp://n40:30001", "40"⟩,
    ⟨"tcp://n10:30001", "10"⟩]⟩

/-- Node `0x10` answers with five successors; of the two candidates of the next hop,
`0x90` sends a body that does not decode and `0xc0` answers properly. -/
def garbledEnv : Env where
  urlParseHost := testHost
  findSuccessorAddrs := fun _ _ => Reply.ok ["tcp://n10:30001"]
  getChordRingInfo := fun _ _ a =>
    if a = "http://n10:30003" then Reply.ok wide10
    else if a = "http://n90:30003" then Reply.undecodable
    else if a = "http://nc0:30003" then Reply.ok wideC0
    else Reply.transportErr

/-- As `garbledEnv`, with node `0x90` unreachable instead. -/
def unreachableEnv : Env where
  urlParseHost := testHost
  findSuccessorAddrs := fun _ _ => Reply.ok ["tcp://n10:30001"]
  getChordRingInfo := fun _ _ a =>
    if a = "http://n10:30003" then Reply.ok wide10
    else if a = "http://nc0:30003" then Reply.ok wideC0
    else Reply.transportErr

/-- The walk state of `unreachableEnv` and of `garbledEnv` after hop 0. -/
def afterFirstHop : WalkState :=
  ⟨["http://n90:30003", "http://nc0:30003"], 1, "10", 7, 100, [wide10]⟩

/-- The final walk state on `unreachableEnv` with hop budget 2. -/
def afterSecondHop : WalkState :=
  ⟨["http://n90:30003", "http://nc0:30003"], 4, "c0", 12, 160, [wide10, wideC0]⟩

/-! ## Walk invariant -/

/-- The facts about the walk state that hold at the head of every iteration: `lastID` is
the identifier of the last confirmed answer, consecutive confirmed answers are linked,
and `nodesVisited` is one before the first confirmation and the number of confirmations
plus the skipped positions afterwards. -/
structure WalkInv (st : WalkState) : Prop where
  last : ∀ prev, st.confirmed.getLast? = some prev → st.lastID = prev.id
  chain : List.Chain' Linked st.confirmed
  count : st.nodesVisited =
    if st.confirmed = [] then 1 else (st.confirmed.length : Int) + (skipSum st.confirmed : Nat)

/-! ## Ring arithmetic -/

theorem totalSpace_pos : 0 < totalSpace := by norm_num [totalSpace]

theorem forwardDistance_self (R k : Int) : forwardDistance R k k = 0 := by
  simp [forwardDistance]

theorem forwardDistance_range (R a b : Int) (ha : 0 ≤ a ∧ a < R) (hb : 0 ≤ b ∧ b < R) :
    0 ≤ forwardDistance R a b ∧ forwardDistance R a b < R := by
  unfold forwardDistance
  split_ifs <;> omega

theorem forwardDistance_add_swap (R a b : Int) (hab : a ≠ b) :
    forwardDistance R a b + forwardDistance R b a = R := by
  unfold forwardDistance
  split_ifs <;> omega

/-- C9: for keys `a`, `b`, `k` in `[0, 2^256)` the covered-area computation of
`sampleNodes` gives `0` from a key to itself, a result in `[0, 2^256)`, and the two
distances between distinct keys add up to the ring size. -/
theorem forwardDistance_ring_laws (a b k : Int)
    (ha : 0 ≤ a ∧ a < totalSpace) (hb : 0 ≤ b ∧ b < totalSpace)
    (_hk : 0 ≤ k ∧ k < totalSpace) :
    forwardDistance totalSpace k k = 0 ∧
      (0 ≤ forwardDistance totalSpace a b ∧ forwardDistance totalSpace a b < totalSpace) ∧
      (a ≠ b → forwardDistance totalSpace a b + forwardDistance totalSpace b a = totalSpace) :=
  ⟨forwardDistance_self _ k, forwardDistance_range _ a b ha hb,
    fun h => forwardDistance_add_swap _ a b h⟩

/-- C9 at the keys `9`, `3` and `7`. -/
theorem forwardDistance_ring_laws_witness :
    forwardDistance totalSpace 7 7 = 0 ∧
      (0 ≤ forwardDistance totalSpace 9 3 ∧ forwardDistance totalSpace 9 3 < totalSpace) ∧
      ((9 : Int) ≠ 3 →
        forwardDistance totalSpace 9 3 + forwardDistance totalSpace 3 9 = totalSpace) :=
  forwardDistance_ring_laws 9 3 7 (by norm_num [totalSpace]) (by norm_num [totalSpace])
    (by norm_num [totalSpace])

theorem offset_nonneg (R i m : Int) (hR : 0 ≤ R) (hi : 0 ≤ i) (hm : 0 < m) : 0 ≤ offset R i m :=
  Int.ediv_nonneg (mul_nonneg hR hi) hm.le

theorem offset_lt (R i m : Int) (hR : 0 < R) (hm : 0 < m) (him : i < m) : offset R i m < R := by
  unfold offset
  apply Int.ediv_lt_of_lt_mul hm
  exact mul_lt_mul_of_pos_left him hR

theorem offset_step_lower (R i m : Int) (hm : 0 < m) :
    offset R i m + R / m ≤ offset R (i + 1) m := by
  unfold offset
  have h1 : R * (i + 1) = (R * i + R % m) + m * (R / m) := by
    have := Int.emod_add_ediv R m
    linarith
  rw [h1, Int.add_mul_ediv_left _ _ hm.ne']
  have h2 : R * i / m ≤ (R * i + R % m) / m :=
    Int.ediv_le_ediv hm (by have := Int.emod_nonneg R hm.ne'; linarith)
  linarith

theorem offset_step_upper (R i m : Int) (hm : 0 < m) :
    offset R (i + 1) m ≤ offset R i m + R / m + 1 := by
  unfold offset
  have h1 : R * (i + 1) = (R * i + R % m) + m * (R / m) := by
    have := Int.emod_add_ediv R m
    linarith
  rw [h1, Int.add_mul_ediv_left _ _ hm.ne']
  have h2 : (R * i + R % m) / m ≤ (R * i + m * 1) / m :=
    Int.ediv_le_ediv hm (by have := Int.emod_lt_of_pos R hm; linarith)
  rw [Int.add_mul_ediv_left _ _ hm.ne'] at h2
  linarith

theorem offset_strictMono (R m : Int) (hm : 0 < m) (hmR : m ≤ R) (i j : Int) (hij : i < j) :
    offset R i m < offset R j m := by
  have h1 : offset R i m + 1 ≤ offset R (i + 1) m := by
    have := offset_step_lower R i m hm
    have h2 : 1 ≤ R / m := by
      rw [Int.le_ediv_iff_mul_le hm]; linarith
    linarith
  have h3 : offset R (i + 1) m ≤ offset R j m := by
    unfold offset
    apply Int.ediv_le_ediv hm
    apply mul_le_mul_of_nonneg_left (by omega) (by linarith)
  linarith

theorem startKey_range (R S i m : Int) (hR : 0 < R) :
    0 ≤ startKey R S i m ∧ startKey R S i m < R :=
  ⟨Int.emod_nonneg _ hR.ne', Int.emod_lt_of_pos _ hR⟩

theorem startKey_injective (R S m : Int) (hR : 0 < R) (hm : 0 < m) (hmR : m ≤ R)
    (i j : Int) (hi : 0 ≤ i) (hij : i < j) (hj : j < m) :
    startKey R S i m ≠ startKey R S j m := by
  unfold startKey
  intro h
  have h1 := offset_strictMono R m hm hmR i j hij
  have h2 := offset_nonneg R i m hR.le hi hm
  have h3 := offset_lt R j m hR hm hj
  have h4 : (S + offset R j m - (S + offset R i m)) % R = 0 :=
    Int.emod_eq_emod_iff_emod_sub_eq_zero.mp h.symm
  have h5 : S + offset R j m - (S + offset R i m) = offset R j m - offset R i m := by ring
  rw [h5, Int.emod_eq_of_lt (by linarith) (by linarith)] at h4
  linarith

/-- C8: for a base key `S` in `[0, 2^256)` and `1 ≤ m < 2^256`, the start keys
`(S + ⌊2^256·i/m⌋) mod 2^256` of `main` for `i = 0..m-1` lie in `[0, 2^256)`, are pairwise
distinct, and consecutive offsets differ from `⌊2^256/m⌋` by at most one. -/
theorem startKeys_distinct_evenly_spaced (S m : Int)
    (_hS : 0 ≤ S ∧ S < totalSpace) (hm : 1 ≤ m ∧ m < totalSpace) :
    (∀ i, 0 ≤ i → i < m →
      0 ≤ startKey totalSpace S i m ∧ startKey totalSpace S i m < totalSpace) ∧
    (∀ i j, 0 ≤ i → i < m → 0 ≤ j → j < m → i ≠ j →
      startKey totalSpace S i m ≠ startKey totalSpace S j m) ∧
    (∀ i, 0 ≤ i → i < m →
      |offset totalSpace (i + 1) m - offset totalSpace i m - totalSpace / m| ≤ 1) := by
  refine ⟨fun i _ _ => startKey_range _ S i m totalSpace_pos, ?_, ?_⟩
  · intro i j hi him hj hjm hij
    rcases lt_or_gt_of_ne hij with h | h
    · exact startKey_injective _ S m totalSpace_pos (by omega) (by omega) i j hi h hjm
    · exact (startKey_injective _ S m totalSpace_pos (by omega) (by omega) j i hj h him).symm
  · intro i _ _
    have h1 := offset_step_lower totalSpace i m (by omega)
    have h2 := offset_step_upper totalSpace i m (by omega)
    rw [abs_le]
    constructor <;> linarith

/-- C8 at the base key `5` with the default `m = 8`. -/
theorem startKeys_distinct_evenly_spaced_witness :
    (∀ i : Int, 0 ≤ i → i < 8 →
      0 ≤ startKey totalSpace 5 i 8 ∧ startKey totalSpace 5 i 8 < totalSpace) ∧
    (∀ i j : Int, 0 ≤ i → i < 8 → 0 ≤ j → j < 8 → i ≠ j →
      startKey totalSpace 5 i 8 ≠ startKey totalSpace 5 j 8) ∧
    (∀ i : Int, 0 ≤ i → i < 8 →
      |offset totalSpace (i + 1) 8 - offset totalSpace i 8 - totalSpace / 8| ≤ 1) :=
  startKeys_distinct_evenly_spaced 5 8 (by norm_num [totalSpace]) (by norm_num [totalSpace])

/-! ## Estimator -/

theorem toInt64_of_range (x : Int) (h0 : 0 ≤ x) (h1 : x < 2 ^ 63) : toInt64 x = x := by
  unfold toInt64
  have h2 : ((x.natAbs % 2 ^ 64 : Nat) : Int) = x := by
    rw [Nat.mod_eq_of_lt (by omega)]
    omega
  simp only [h2]
  rw [if_pos h1, if_neg (by omega)]

/-- C1, as stated, fails: with one node visited over an area of one key the quotient
`⌊1·2^256/1⌋ = 2^256` does not fit the `int64` that `main` converts it to, and
`estimatedTotalNodes` is `0`. -/
theorem estimatedTotalNodes_overflow :
    (0 : Int) ≤ 1 ∧ (0 : Int) < 1 ∧
      estimatedTotalNodes totalSpace 1 1 = 0 ∧
      estimatedTotalNodes totalSpace 1 1 ≠ 1 * totalSpace / 1 := by
  decide!

/-- C1 (amended): for `visited ≥ 0` and `area > 0` the `estimatedTotalNodes` value of
`main` equals `⌊visited·2^256/area⌋` whenever that quotient is below `2^63`. -/
theorem estimatedTotalNodes_eq_floor (visited area : Int) (hv : 0 ≤ visited) (ha : 0 < area)
    (hfit : visited * totalSpace / area < 2 ^ 63) :
    estimatedTotalNodes totalSpace visited area = visited * totalSpace / area := by
  unfold estimatedTotalNodes
  exact toInt64_of_range _ (Int.ediv_nonneg (mul_nonneg hv totalSpace_pos.le) ha.le) hfit

/-- C1 (amended) at three nodes visited over half of the ring. -/
theorem estimatedTotalNodes_eq_floor_witness :
    estimatedTotalNodes totalSpace 3 (2 ^ 255) = 3 * totalSpace / 2 ^ 255 :=
  estimatedTotalNodes_eq_floor 3 (2 ^ 255) (by norm_num) (by norm_num)
    (by norm_num [totalSpace])

theorem report_isFinite_iff (visited : Int) (relay : Nat) (uptime est : Int) :
    ((coveredPercent visited est).isFinite && (relayPerSecond relay uptime est).isFinite) = true
      ↔ uptime ≠ 0 ∧ 2 ≤ est := by
  unfold relayPerSecond coveredPercent F64.ofInt F64.log2OfInt
  by_cases hv : visited = 0 <;>
  by_cases hr : (relay : Int) = 0 <;> by_cases hu : uptime = 0 <;>
    by_cases h0 : est < 0 <;> by_cases h1 : est = 0 <;> by_cases h2 : est = 1 <;>
    simp [hv, hr, hu, h0, h1, h2, F64.mul, F64.div, F64.isFinite] <;> omega

/-- C3, as stated, fails: with `uptimeTotal = 0` (and `estimatedTotalNodes = 1`) over a
non-zero area the text output of `main` reports no error; it prints an estimate whose
relay-per-second value is NaN. -/
theorem estimate_zero_uptime_reports :
    (⟨1, 0, 0, 2 ^ 256⟩ : Aggregate).totalUptime = 0 ∧
    estimatedTotalNodes totalSpace 1 (2 ^ 256) ≤ 1 ∧
    mainEstimate totalSpace false ⟨1, 0, 0, 2 ^ 256⟩ =
      Except.ok ⟨1, 1, ⟨FKind.fin, false⟩, ⟨FKind.nan, false⟩⟩ := by
  decide!

/-- C3 (amended): with a non-zero aggregated area, the estimation step of `main` reports
no error in text mode, and in `-json` mode it fails, with "json formatter error", exactly
when `uptimeTotal` is zero or `estimatedTotalNodes ≤ 1`. -/
theorem estimate_fails_iff (R : Int) (a : Aggregate) (h : a.totalArea ≠ 0) :
    (∃ r, mainEstimate R false a = Except.ok r) ∧
    ((a.totalUptime = 0 ∨ estimatedTotalNodes R a.totalNodesVisited a.totalArea ≤ 1) ↔
      mainEstimate R true a = Except.error "json formatter error") := by
  constructor
  · simp [mainEstimate, h]
  · have h1 := report_isFinite_iff a.totalNodesVisited a.totalRelay a.totalUptime
      (estimatedTotalNodes R a.totalNodesVisited a.totalArea)
    unfold mainEstimate
    simp only [h, if_false, Bool.true_and]
    cases hc : ((coveredPercent a.totalNodesVisited
        (estimatedTotalNodes R a.totalNodesVisited a.totalArea)).isFinite &&
        (relayPerSecond a.totalRelay a.totalUptime
        (estimatedTotalNodes R a.totalNodesVisited a.totalArea)).isFinite)
    · rw [hc] at h1
      simp at h1 ⊢
      omega
    · rw [hc] at h1
      simp at h1 ⊢
      omega

/-- C3 (amended) at four nodes, nine relays and zero uptime over half of the ring. -/
theorem estimate_fails_iff_witness :
    (∃ r, mainEstimate totalSpace false ⟨4, 9, 0, 2 ^ 255⟩ = Except.ok r) ∧
    (((⟨4, 9, 0, 2 ^ 255⟩ : Aggregate).totalUptime = 0 ∨
        estimatedTotalNodes totalSpace (⟨4, 9, 0, 2 ^ 255⟩ : Aggregate).totalNodesVisited
          (⟨4, 9, 0, 2 ^ 255⟩ : Aggregate).totalArea ≤ 1) ↔
      mainEstimate totalSpace true ⟨4, 9, 0, 2 ^ 255⟩ = Except.error "json formatter error") :=
  estimate_fails_iff totalSpace ⟨4, 9, 0, 2 ^ 255⟩ (by decide!)

/-! ## The float64 square root -/

theorem isqrtAux_spec (b : Nat) : ∀ (n r : Nat), r * r ≤ n → n < (r + 2 ^ b) * (r + 2 ^ b) →
    isqrtAux b n r * isqrtAux b n r ≤ n ∧ n < (isqrtAux b n r + 1) * (isqrtAux b n r + 1) := by
  induction b with
  | zero =>
    intro n r h1 h2
    simpa [isqrtAux] using ⟨h1, h2⟩
  | succ b ih =>
    intro n r h1 h2
    unfold isqrtAux
    split_ifs with hc
    · apply ih _ _ hc
      have : r + 2 ^ b + 2 ^ b = r + 2 ^ (b + 1) := by rw [pow_succ]; ring
      rw [this]; exact h2
    · exact ih _ _ h1 (not_le.mp hc)

theorem isqrtAux_eq_sqrt (b n : Nat) (h : n < 4 ^ b) : isqrtAux b n 0 = Nat.sqrt n := by
  apply Nat.eq_sqrt.mpr
  apply isqrtAux_spec b n 0 (by simp)
  have : (0 + 2 ^ b) * (0 + 2 ^ b) = 4 ^ b := by
    rw [zero_add, ← mul_pow]; norm_num
  rw [this]; exact h

theorem bitLenAux_le (f : Nat) : ∀ (n j : Nat), n < 2 ^ j → bitLenAux f n ≤ j := by
  induction f with
  | zero => intro n j _; simp [bitLenAux]
  | succ f ih =>
    intro n j h
    unfold bitLenAux
    split_ifs with h0
    · exact Nat.zero_le _
    · cases j with
      | zero => simp at h; exact absurd h h0
      | succ j =>
        have : n / 2 < 2 ^ j := by
          rw [pow_succ] at h; omega
        have := ih (n / 2) j this
        omega

theorem sqrt_mul_sq_div (y M : Nat) (hM : 0 < M) : Nat.sqrt (y * (M * M)) / M = Nat.sqrt y := by
  apply Nat.eq_sqrt.mpr
  set q := Nat.sqrt (y * (M * M)) with hq
  have h1 : q * q ≤ y * (M * M) := Nat.sqrt_le _
  have h2 : y * (M * M) < (q + 1) * (q + 1) := Nat.lt_succ_sqrt _
  have h3 : q / M * M ≤ q := Nat.div_mul_le_self q M
  have h4 : q < (q / M + 1) * M := by
    have := Nat.lt_succ_iff.mpr (le_refl (q / M))
    exact (Nat.div_lt_iff_lt_mul hM).mp this
  constructor
  · have : (q / M * M) * (q / M * M) ≤ y * (M * M) :=
      le_trans (Nat.mul_le_mul h3 h3) h1
    have h5 : (q / M * (q / M)) * (M * M) ≤ y * (M * M) := by
      calc (q / M * (q / M)) * (M * M) = (q / M * M) * (q / M * M) := by ring
        _ ≤ _ := this
    exact Nat.le_of_mul_le_mul_right h5 (Nat.mul_pos hM hM)
  · have h6 : q + 1 ≤ (q / M + 1) * M := h4
    have : y * (M * M) < ((q / M + 1) * M) * ((q / M + 1) * M) :=
      lt_of_lt_of_le h2 (Nat.mul_le_mul h6 h6)
    have h7 : y * (M * M) < ((q / M + 1) * (q / M + 1)) * (M * M) := by
      calc y * (M * M) < ((q / M + 1) * M) * ((q / M + 1) * M) := this
        _ = _ := by ring
    exact Nat.lt_of_mul_lt_mul_right h7

theorem round_div_eq_sqrt (y M q : Nat) (hM : Nat.sqrt y + 1 ≤ M)
    (hq : q = Nat.sqrt (y * (M * M)) ∨
      (q = Nat.sqrt (y * (M * M)) + 1 ∧
        Nat.sqrt (y * (M * M)) * Nat.sqrt (y * (M * M)) + Nat.sqrt (y * (M * M)) < y * (M * M))) :
    q / M = Nat.sqrt y := by
  have hMpos : 0 < M := by omega
  have hA := sqrt_mul_sq_div y M hMpos
  rcases hq with hq | ⟨hq, hlt⟩
  · rw [hq]; exact hA
  · set q0 := Nat.sqrt (y * (M * M)) with hq0
    set r := Nat.sqrt y with hr
    have h3 : r * M ≤ q0 := by
      rw [← hA]; exact Nat.div_mul_le_self q0 M
    have h4 : q0 < (r + 1) * M := by
      rw [← hA]
      exact (Nat.div_lt_iff_lt_mul hMpos).mp (Nat.lt_succ_iff.mpr (le_refl _))
    rw [hq]
    by_cases hcase : q0 + 1 < (r + 1) * M
    · apply Nat.div_eq_of_lt_le
      · omega
      · exact hcase
    · exfalso
      have h5 : q0 + 1 = (r + 1) * M := by omega
      have h6 : y + 1 ≤ (r + 1) * (r + 1) := Nat.succ_le_succ_sqrt y
      have h7 : q0 * (q0 + 1) < y * (M * M) := by
        calc q0 * (q0 + 1) = q0 * q0 + q0 := by ring
          _ < _ := hlt
      have h8 : (y + 1) * (M * M) ≤ (r + 1) * (r + 1) * (M * M) :=
        Nat.mul_le_mul_right _ h6
      have h9 : (r + 1) * (r + 1) * (M * M) = q0 * (q0 + 1) + (q0 + 1) := by
        calc (r + 1) * (r + 1) * (M * M) = ((r + 1) * M) * ((r + 1) * M) := by ring
          _ = (q0 + 1) * (q0 + 1) := by rw [h5]
          _ = q0 * (q0 + 1) + (q0 + 1) := by ring
      have h10 : (r + 1) * M ≤ M * M := Nat.mul_le_mul_right _ hM
      have h11 : (y + 1) * (M * M) = y * (M * M) + M * M := by ring
      omega


theorem float64OfNat_exact (k : Nat) (h : k < 2 ^ 53) : float64OfNat k = k := by
  unfold float64OfNat
  simp only
  rw [if_pos (bitLenAux_le 64 k 53 h)]

theorem bitLenAux_lt (f : Nat) : ∀ n : Nat, n < 2 ^ f → n < 2 ^ bitLenAux f n := by
  induction f with
  | zero => intro n h; simpa [bitLenAux] using h
  | succ f ih =>
    intro n h
    unfold bitLenAux
    split_ifs with h0
    · subst h0; norm_num
    · have h1 : n / 2 < 2 ^ f := by rw [pow_succ] at h; omega
      have h2 := ih (n / 2) h1
      rw [pow_succ]; omega

theorem float64Sqrt_trunc (x k e : Nat) (he : e + k ≤ 26) (hx : x < 2 ^ e * 2 ^ e) :
    (2 ^ k * (float64Sqrt x).1) / 2 ^ (float64Sqrt x).2 = Nat.sqrt (4 ^ k * x) := by
  have h4e : 2 ^ e * 2 ^ e = 4 ^ e := by rw [← mul_pow]; norm_num
  have hr : isqrtAux 33 x 0 = Nat.sqrt x := by
    apply isqrtAux_eq_sqrt 33 x
    calc x < 4 ^ e := by omega
      _ ≤ 4 ^ 33 := Nat.pow_le_pow_right (by norm_num) (by omega)
  have hs : Nat.sqrt x < 2 ^ e := Nat.sqrt_lt.mpr hx
  have hL : bitLenAux 64 (Nat.sqrt x) ≤ e := bitLenAux_le 64 _ e hs
  have hL2 : Nat.sqrt x < 2 ^ bitLenAux 64 (Nat.sqrt x) :=
    bitLenAux_lt 64 _ (lt_of_lt_of_le hs (Nat.pow_le_pow_right (by norm_num) (by omega)))
  obtain ⟨L, hLdef⟩ : ∃ L, L = bitLenAux 64 (Nat.sqrt x) := ⟨_, rfl⟩
  rw [← hLdef] at hL hL2
  obtain ⟨t, ht⟩ : ∃ t, t = 53 - L := ⟨_, rfl⟩
  have ht27 : 27 + k ≤ t := by omega
  have hy : x * 4 ^ t < 4 ^ 53 := by
    have h1 : x < 4 ^ L := by
      have h2 : x < (Nat.sqrt x + 1) * (Nat.sqrt x + 1) := Nat.lt_succ_sqrt x
      have h3 : (Nat.sqrt x + 1) * (Nat.sqrt x + 1) ≤ 2 ^ L * 2 ^ L :=
        Nat.mul_le_mul hL2 hL2
      have h4 : 2 ^ L * 2 ^ L = 4 ^ L := by rw [← mul_pow]; norm_num
      omega
    have h5 : (4 : Nat) ^ 53 = 4 ^ L * 4 ^ t := by
      rw [← pow_add]; congr 1; omega
    rw [h5]
    exact Nat.mul_lt_mul_of_lt_of_le h1 (le_refl _) (by positivity)
  have hq0 : isqrtAux 53 (x * 4 ^ t) 0 = Nat.sqrt (x * 4 ^ t) := isqrtAux_eq_sqrt 53 _ hy
  have hM : 2 ^ t = 2 ^ k * 2 ^ (t - k) := by
    rw [← pow_add]; congr 1; omega
  have hyM : x * 4 ^ t = 4 ^ k * x * (2 ^ (t - k) * 2 ^ (t - k)) := by
    have : (4 : Nat) ^ t = 4 ^ k * 4 ^ (t - k) := by
      rw [← pow_add]; congr 1; omega
    rw [this, ← mul_pow]; ring
  have hsk : Nat.sqrt (4 ^ k * x) + 1 ≤ 2 ^ (t - k) := by
    have h1 : Nat.sqrt (4 ^ k * x) < 2 ^ (k + e) := by
      rw [Nat.sqrt_lt]
      have h2 : 2 ^ (k + e) * 2 ^ (k + e) = 4 ^ k * (2 ^ e * 2 ^ e) := by
        rw [pow_add, show (4 : Nat) = 2 * 2 by norm_num, mul_pow]; ring
      rw [h2]
      exact Nat.mul_lt_mul_of_le_of_lt (le_refl _) hx (by positivity)
    have h2 : 2 ^ (k + e) ≤ 2 ^ (t - k) := Nat.pow_le_pow_right (by norm_num) (by omega)
    omega
  have key : ∀ q, (q = Nat.sqrt (x * 4 ^ t) ∨ (q = Nat.sqrt (x * 4 ^ t) + 1 ∧
      Nat.sqrt (x * 4 ^ t) * Nat.sqrt (x * 4 ^ t) + Nat.sqrt (x * 4 ^ t) < x * 4 ^ t)) →
      (2 ^ k * q) / 2 ^ t = Nat.sqrt (4 ^ k * x) := by
    intro q hq
    rw [hM, Nat.mul_div_mul_left _ _ (by positivity)]
    apply round_div_eq_sqrt _ _ _ hsk
    rw [← hyM]; exact hq
  unfold float64Sqrt
  simp only [hr, ← hLdef, ← ht, hq0]
  split_ifs with hc
  · exact key _ (Or.inr ⟨rfl, hc⟩)
  · exact key _ (Or.inl rfl)

theorem sqrtInt64_eq (v : Int) (h0 : 0 ≤ v) (h1 : v < 2 ^ 52) :
    sqrtInt64 v = (Nat.sqrt v.toNat : Int) := by
  unfold sqrtInt64
  have hv : v.toNat < 2 ^ 52 := by omega
  have := float64Sqrt_trunc v.toNat 0 26 (by norm_num) (by omega)
  simp only [pow_zero, one_mul] at this
  rw [float64OfNat_exact _ (lt_of_lt_of_le hv (by norm_num))]
  simp only [this]

theorem twoSqrtInt_eq (s : Nat) (h1 : s < 2 ^ 50) :
    twoSqrtInt s = (Nat.sqrt (4 * s) : Int) := by
  unfold twoSqrtInt
  have := float64Sqrt_trunc s 1 25 (by norm_num) (by omega)
  simp only [pow_one] at this
  rw [float64OfNat_exact _ (lt_of_lt_of_le h1 (by norm_num))]
  simp only [this]

theorem floor_two_sqrt (s : Nat) : ⌊2 * Real.sqrt (s : ℝ)⌋ = (Nat.sqrt (4 * s) : Int) := by
  have h : (2 : ℝ) * Real.sqrt (s : ℝ) = Real.sqrt ((4 * s : Nat) : ℝ) := by
    have h4 : ((4 * s : Nat) : ℝ) = (2 : ℝ) ^ 2 * (s : ℝ) := by push_cast; ring
    rw [h4, Real.sqrt_mul (by positivity), Real.sqrt_sq (by norm_num)]
  rw [h]
  exact Real.floor_real_sqrt_eq_nat_sqrt


/-- C2, as stated, fails: with two nodes visited over a quarter of the ring `main`
computes `⌊1·2^256/2^254⌋ = 4` from the integer part of `√2`, whereas
`⌊√2·2^256/2^254⌋ = 5`. -/
theorem uncertainty_integer_sqrt :
    uncertainty totalSpace 2 (2 ^ 254) = 4 ∧
      ⌊Real.sqrt ((2 : Int) : ℝ) * ((totalSpace : Int) : ℝ) / (((2 : Int) ^ 254 : Int) : ℝ)⌋ = 5 := by
  constructor
  · decide!
  · have h : Real.sqrt ((2 : Int) : ℝ) * ((totalSpace : Int) : ℝ) / (((2 : Int) ^ 254 : Int) : ℝ)
        = 4 * Real.sqrt 2 := by
      unfold totalSpace
      push_cast
      rw [div_eq_iff (by norm_num)]
      ring
    rw [h, Int.floor_eq_iff]
    have h1 : (5 / 4 : ℝ) ≤ Real.sqrt 2 := by
      rw [Real.le_sqrt' (by norm_num)]; norm_num
    have h2 : Real.sqrt 2 < 3 / 2 := by
      rw [Real.sqrt_lt' (by norm_num)]; norm_num
    constructor
    · push_cast; linarith
    · push_cast; linarith

/-- C2 (amended): for `0 ≤ visited < 2^52` and `area > 0` the `uncertainty` value of
`main` equals `⌊⌊√visited⌋·2^256/area⌋`, the quotient taken with the integer part of the
square root, whenever that quotient is below `2^63`. -/
theorem uncertainty_eq_floor (visited area : Int) (hv : 0 ≤ visited) (hv2 : visited < 2 ^ 52)
    (ha : 0 < area) (hfit : ⌊Real.sqrt (visited : ℝ)⌋ * totalSpace / area < 2 ^ 63) :
    uncertainty totalSpace visited area = ⌊Real.sqrt (visited : ℝ)⌋ * totalSpace / area := by
  have hfloor : ⌊Real.sqrt (visited : ℝ)⌋ = (Nat.sqrt visited.toNat : Int) := by
    have hcast : (visited : ℝ) = ((visited.toNat : Nat) : ℝ) := by
      have : visited = (visited.toNat : Int) := (Int.toNat_of_nonneg hv).symm
      calc (visited : ℝ) = (((visited.toNat : Int)) : ℝ) := by rw [← this]
        _ = ((visited.toNat : Nat) : ℝ) := by push_cast; rfl
    rw [hcast]
    exact Real.floor_real_sqrt_eq_nat_sqrt
  rw [hfloor] at hfit ⊢
  unfold uncertainty
  rw [sqrtInt64_eq visited hv hv2]
  apply toInt64_of_range _ _ hfit
  exact Int.ediv_nonneg (mul_nonneg (by positivity) totalSpace_pos.le) ha.le

/-- C2 (amended) at ten nodes visited over half of the ring. -/
theorem uncertainty_eq_floor_witness :
    uncertainty totalSpace 10 (2 ^ 255) = ⌊Real.sqrt ((10 : Int) : ℝ)⌋ * totalSpace / 2 ^ 255 :=
  uncertainty_eq_floor 10 (2 ^ 255) (by norm_num) (by norm_num) (by norm_num) (by
    have h : ⌊Real.sqrt ((10 : Int) : ℝ)⌋ ≤ 4 := by
      have h1 : Real.sqrt ((10 : Int) : ℝ) < 4 := by
        rw [Real.sqrt_lt' (by norm_num)]; norm_num
      have := Int.floor_le (Real.sqrt ((10 : Int) : ℝ))
      have h2 : ((⌊Real.sqrt ((10 : Int) : ℝ)⌋ : Int) : ℝ) < 4 := lt_of_le_of_lt this h1
      have h3 : ⌊Real.sqrt ((10 : Int) : ℝ)⌋ < 4 := by exact_mod_cast h2
      omega
    have h4 : ⌊Real.sqrt ((10 : Int) : ℝ)⌋ * totalSpace / 2 ^ 255 ≤ 4 * totalSpace / 2 ^ 255 :=
      Int.ediv_le_ediv (by norm_num) (mul_le_mul_of_nonneg_right h totalSpace_pos.le)
    have h5 : 4 * totalSpace / 2 ^ 255 = 8 := by decide!
    exact lt_of_le_of_lt h4 (by rw [h5]; norm_num))

/-! ## Hexadecimal text -/

theorem hexVal_hexDigit (d : Nat) (h : d < 16) : hexVal (hexDigit d) = some d := by
  interval_cases d <;> rfl

theorem hexDigit_ne_sign (d : Nat) (h : d < 16) : hexDigit d ≠ '-' ∧ hexDigit d ≠ '+' := by
  interval_cases d <;> decide

theorem scanHex_hexDigitsAux (f : Nat) : ∀ (n : Nat) (acc : List Char), n < 16 ^ f →
    scanHex (hexDigitsAux f n acc) 0 = scanHex acc n := by
  induction f with
  | zero =>
    intro n acc h
    have : n = 0 := by simpa using h
    subst this
    rfl
  | succ f ih =>
    intro n acc h
    unfold hexDigitsAux
    split_ifs with h16
    · simp [scanHex, hexVal_hexDigit n h16]
    · have h1 : n / 16 < 16 ^ f := by
        rw [pow_succ] at h; omega
      rw [ih _ _ h1]
      have h2 : n / 16 * 16 + n % 16 = n := by omega
      simp [scanHex, hexVal_hexDigit (n % 16) (Nat.mod_lt _ (by norm_num)), h2]

theorem hexDigitsAux_head (f : Nat) : ∀ (n : Nat) (acc : List Char),
    (1 ≤ f ∨ ∃ d rest, d < 16 ∧ acc = hexDigit d :: rest) →
    ∃ d rest, d < 16 ∧ hexDigitsAux f n acc = hexDigit d :: rest := by
  induction f with
  | zero =>
    intro n acc h
    rcases h with h | h
    · omega
    · simpa [hexDigitsAux] using h
  | succ f ih =>
    intro n acc _
    unfold hexDigitsAux
    split_ifs with h16
    · exact ⟨n, acc, h16, rfl⟩
    · exact ih _ _ (Or.inr ⟨n % 16, acc, Nat.mod_lt _ (by norm_num), rfl⟩)

theorem lt_sixteen_pow (n : Nat) : n < 16 ^ (n + 1) :=
  lt_of_lt_of_le (Nat.lt_pow_self (by norm_num) n)
    (Nat.pow_le_pow_right (by norm_num) (Nat.le_succ n))

theorem setString16_text16 (k : Int) : setString16 (text16 k) = k := by
  have hscan : scanHex (hexDigitsAux (k.natAbs + 1) k.natAbs []) 0 = k.natAbs := by
    rw [scanHex_hexDigitsAux _ _ _ (lt_sixteen_pow _)]; rfl
  unfold text16
  split_ifs with hneg
  · simp only [setString16]
    simp [hscan, abs_of_neg hneg]
  · obtain ⟨d, rest, hd, hrest⟩ :=
      hexDigitsAux_head (k.natAbs + 1) k.natAbs [] (Or.inl (by omega))
    have hsign := hexDigit_ne_sign d hd
    simp only [setString16]
    rw [hrest] at hscan ⊢
    simp only [hsign.1, hsign.2, if_false, hscan]
    omega

/-! ## Candidate querying -/

theorem queryCandidates_all_fail (env : Env) (i : Nat) (addrs : List String) :
    ∀ k : Nat, (∀ j a, addrs[j]? = some a → env.getChordRingInfo i (k + j) a = Reply.transportErr) →
      queryCandidates env i k addrs = none := by
  induction addrs with
  | nil => intro k _; rfl
  | cons a rest ih =>
    intro k h
    have h0 := h 0 a (by simp)
    simp only [Nat.add_zero] at h0
    simp only [queryCandidates, h0]
    apply ih
    intro j b hb
    have := h (j + 1) b (by simpa using hb)
    rw [show k + 1 + j = k + (j + 1) by omega]
    exact this

theorem queryCandidates_first_answer (env : Env) (i : Nat) (addrs : List String) :
    ∀ (k p : Nat) (a : String), addrs[p]? = some a →
      (∀ j b, j < p → addrs[j]? = some b → env.getChordRingInfo i (k + j) b = Reply.transportErr) →
      queryCandidates env i k addrs =
        match env.getChordRingInfo i (k + p) a with
        | Reply.transportErr => queryCandidates env i (k + p + 1) (addrs.drop (p + 1))
        | Reply.undecodable => some none
        | Reply.ok r => some (some r) := by
  induction addrs with
  | nil => intro k p a h; simp at h
  | cons c rest ih =>
    intro k p a hp hfail
    cases p with
    | zero =>
      simp only [List.getElem?_cons_zero, Option.some.injEq] at hp
      subst hp
      simp only [Nat.add_zero, queryCandidates, List.drop_succ_cons, List.drop_zero]
    | succ p =>
      have h0 := hfail 0 c (by omega) (by simp)
      simp only [Nat.add_zero] at h0
      simp only [queryCandidates, h0]
      have hp2 : rest[p]? = some a := by simpa using hp
      rw [ih (k + 1) p a hp2]
      · simp only [show k + 1 + p = k + (p + 1) by omega, List.drop_succ_cons]
      · intro j b hj hb
        have := hfail (j + 1) b (by omega) (by simpa using hb)
        rw [show k + 1 + j = k + (j + 1) by omega]
        exact this

/-- C10 (amended): at every hop the candidates are tried in order and a transport error
moves on to the next one.  With `a` the first candidate whose request gets an answer:
if the answer decodes, the hop proceeds with it; if it does not decode, the walk stops at
this hop without trying the remaining candidates.  The walk also stops when every
candidate has a transport error. -/
theorem hop_candidate_fallback (env : Env) (i : Nat) (st : WalkState) (p : Nat) (a : String)
    (hp : st.rpcAddresses[p]? = some a)
    (hfail : ∀ j b, j < p → st.rpcAddresses[j]? = some b →
      env.getChordRingInfo i j b = Reply.transportErr) :
    (∀ r, env.getChordRingInfo i p a = Reply.ok r → hopStep env i st = confirmHop env i st r) ∧
    (env.getChordRingInfo i p a = Reply.undecodable → hopStep env i st = (st, false)) ∧
    ((∀ j b, st.rpcAddresses[j]? = some b → env.getChordRingInfo i j b = Reply.transportErr) →
      hopStep env i st = (st, false)) := by
  have h := queryCandidates_first_answer env i st.rpcAddresses 0 p a hp
    (by intro j b hj hb; simpa using hfail j b hj hb)
  simp only [Nat.zero_add] at h
  refine ⟨?_, ?_, ?_⟩
  · intro r hr
    unfold hopStep
    rw [h, hr]
  · intro hu
    unfold hopStep
    rw [h, hu]
  · intro hall
    unfold hopStep
    rw [queryCandidates_all_fail env i st.rpcAddresses 0
      (by intro j b hb; simpa using hall j b hb)]

/-- C10 (amended) at hop 1 on `unreachableEnv`: the first candidate is unreachable and
the hop proceeds with the answer of the second. -/
theorem hop_candidate_fallback_witness :
    hopStep unreachableEnv 1 afterFirstHop = confirmHop unreachableEnv 1 afterFirstHop wideC0 :=
  (hop_candidate_fallback unreachableEnv 1 afterFirstHop 1 "http://nc0:30003" (by decide)
    (by
      intro j b hj hb
      have hj0 : j = 0 := by omega
      subst hj0
      have hb2 : b = "http://n90:30003" := by
        simpa [afterFirstHop] using hb.symm
      subst hb2
      decide)).1 wideC0 (by decide)

/-- C10, as stated, fails: on `garbledEnv` the first candidate of hop 1 answers with a
body that does not decode and the second candidate would answer properly (its
predecessor list contains the node confirmed at hop 0), yet the walk stops with the
single confirmation of hop 0. -/
theorem garbled_candidate_stops_walk :
    afterFirstHop.rpcAddresses = ["http://n90:30003", "http://nc0:30003"] ∧
    garbledEnv.getChordRingInfo 1 0 "http://n90:30003" = Reply.undecodable ∧
    garbledEnv.getChordRingInfo 1 1 "http://nc0:30003" = Reply.ok wideC0 ∧
    Linked wide10 wideC0 ∧
    sampleNodesState garbledEnv 5 "http://seed:30003" 2 = Except.ok afterFirstHop ∧
    afterFirstHop.confirmed = [wide10] := by
  refine ⟨by decide, by decide, by decide, ?_, by decide, by decide⟩
  unfold Linked
  decide

/-! ## A walk whose first hop fails -/

theorem queryCandidates_no_answer (env : Env) (i : Nat)
    (h : ∀ k a r, env.getChordRingInfo i k a ≠ Reply.ok r) (addrs : List String) :
    ∀ k, queryCandidates env i k addrs = none ∨ queryCandidates env i k addrs = some none := by
  induction addrs with
  | nil => intro k; exact Or.inl rfl
  | cons a rest ih =>
    intro k
    unfold queryCandidates
    cases hr : env.getChordRingInfo i k a with
    | transportErr => exact ih (k + 1)
    | undecodable => exact Or.inr rfl
    | ok r => exact absurd hr (h k a r)

theorem hopStep_no_answer (env : Env) (i : Nat) (st : WalkState)
    (h : ∀ k a r, env.getChordRingInfo i k a ≠ Reply.ok r) : hopStep env i st = (st, false) := by
  unfold hopStep
  rcases queryCandidates_no_answer env i h st.rpcAddresses 0 with h1 | h1 <;> rw [h1]

theorem walkLoop_no_answer (env : Env) (fuel : Nat) (st : WalkState)
    (h : ∀ k a r, env.getChordRingInfo 0 k a ≠ Reply.ok r) : walkLoop env fuel 0 st = st := by
  cases fuel with
  | zero => rfl
  | succ f =>
    unfold walkLoop
    rw [hopStep_no_answer env 0 st h]

/-- C4 (amended): when `findsuccessoraddrs` returns an address that parses and no
`getchordringinfo` request ever yields a decoded answer, `sampleNodes` stops at its
first hop without an error: it returns a `nil` error, relay and uptime totals `0` and
the covered area `ForwardDistance(startKey, startKey) = 0`. -/
theorem sampleNodes_first_hop_fails (R : Int) (env : Env) (startKey : Int)
    (initialRPCAddress : String) (n : Int) (firstAddr rpc : String) (others : List String)
    (hfind : env.findSuccessorAddrs initialRPCAddress (text16 startKey) =
      Reply.ok (firstAddr :: others))
    (haddr : tcpAddrToRPCAddr env firstAddr = some rpc)
    (hnone : ∀ i k a r, env.getChordRingInfo i k a ≠ Reply.ok r) :
    (sampleNodes R env startKey initialRPCAddress n).err = none ∧
    (sampleNodes R env startKey initialRPCAddress n).totalArea = some 0 ∧
    (sampleNodes R env startKey initialRPCAddress n).totalRelay = 0 ∧
    (sampleNodes R env startKey initialRPCAddress n).totalUptime = 0 := by
  unfold sampleNodes sampleNodesState
  simp only [hfind, haddr]
  rw [walkLoop_no_answer env _ _ (hnone 0)]
  simp [setString16_text16, forwardDistance_self]

/-- C4 (amended) on `deafEnv` from key `5` with hop budget 2. -/
theorem sampleNodes_first_hop_fails_witness :
    (sampleNodes totalSpace deafEnv 5 "http://seed:30003" 2).err = none ∧
    (sampleNodes totalSpace deafEnv 5 "http://seed:30003" 2).totalArea = some 0 ∧
    (sampleNodes totalSpace deafEnv 5 "http://seed:30003" 2).totalRelay = 0 ∧
    (sampleNodes totalSpace deafEnv 5 "http://seed:30003" 2).totalUptime = 0 :=
  sampleNodes_first_hop_fails totalSpace deafEnv 5 "http://seed:30003" 2
    "tcp://n10:30001" "http://n10:30003" [] (by decide) (by decide)
    (by intro i k a r h; exact Reply.noConfusion h)

/-- C4, as stated, fails: on `deafEnv`, where `findsuccessoraddrs` returns an address
and every `getchordringinfo` request fails, `sampleNodes` returns nodes-visited `1`,
area `0` and no error. -/
theorem sampleNodes_deaf_network :
    deafEnv.findSuccessorAddrs "http://seed:30003" (text16 5) = Reply.ok ["tcp://n10:30001"] ∧
    (∀ i k a, deafEnv.getChordRingInfo i k a = Reply.transportErr) ∧
    sampleNodes totalSpace deafEnv 5 "http://seed:30003" 2 = ⟨1, 0, 0, some 0, none⟩ := by
  refine ⟨by decide, fun _ _ _ => rfl, by decide!⟩

/-! ## Walk invariant -/

theorem findPrev_eq_some (lastID : String) (preds : List Peer) :
    ∀ j0 j, findPrev lastID preds j0 = some j →
      lastID ∈ preds.map Peer.id ∧ j = j0 + (preds.map Peer.id).indexOf lastID := by
  induction preds with
  | nil => intro j0 j h; simp [findPrev] at h
  | cons p ps ih =>
    intro j0 j h
    unfold findPrev at h
    split_ifs at h with hp
    · simp only [Option.some.injEq] at h
      subst h
      simp [hp, List.indexOf_cons_eq]
    · obtain ⟨h1, h2⟩ := ih (j0 + 1) j h
      refine ⟨by simp [h1], ?_⟩
      rw [List.map_cons, List.indexOf_cons_ne _ hp, h2]
      omega

theorem skipSum_concat (r : rpcChordRingInfoResponse) : ∀ (c : List rpcChordRingInfoResponse) (prev : rpcChordRingInfoResponse),
    c.getLast? = some prev →
    skipSum (c ++ [r]) = skipSum c + (r.predecessors.map Peer.id).indexOf prev.id := by
  intro c
  induction c with
  | nil => intro prev h; simp at h
  | cons a rest ih =>
    intro prev h
    cases rest with
    | nil =>
      simp only [List.getLast?_singleton, Option.some.injEq] at h
      subst h
      simp [skipSum]
    | cons b rest2 =>
      rw [List.getLast?_cons_cons] at h
      have := ih prev h
      show (b.predecessors.map Peer.id).indexOf a.id + skipSum ((b :: rest2) ++ [r]) =
        ((b.predecessors.map Peer.id).indexOf a.id + skipSum (b :: rest2)) + _
      rw [this]; omega

theorem confirmHop_inv (env : Env) (i : Nat) (st : WalkState) (r : rpcChordRingInfoResponse)
    (hinv : WalkInv st) (hlen : st.confirmed.length = i) :
    WalkInv (confirmHop env i st r).1 ∧ (confirmHop env i st r).1.confirmed.length ≤ i + 1 ∧
      ((confirmHop env i st r).2 = true → (confirmHop env i st r).1.confirmed.length = i + 1) := by
  unfold confirmHop
  by_cases hi : i > 0
  · simp only [hi, if_true]
    cases hf : findPrev st.lastID r.predecessors 0 with
    | none => exact ⟨hinv, by simp [hlen], by simp⟩
    | some j =>
      obtain ⟨hmem, hj⟩ := findPrev_eq_some _ _ 0 j hf
      have hne : st.confirmed ≠ [] := by
        intro h; rw [h] at hlen; simp at hlen; omega
      obtain ⟨prev, hprev⟩ : ∃ prev, st.confirmed.getLast? = some prev := by
        cases hl : st.confirmed.getLast? with
        | none => exact absurd (List.getLast?_eq_none_iff.mp hl) hne
        | some p => exact ⟨p, rfl⟩
      have hid := hinv.last prev hprev
      have hI : WalkInv
          { rpcAddresses := st.rpcAddresses
            nodesVisited := st.nodesVisited + (j + 1)
            lastID := r.id
            totalRelay := (st.totalRelay + r.relayMessageCount) % 2 ^ 64
            totalUptime := wrapInt64 (st.totalUptime + r.uptime)
            confirmed := st.confirmed ++ [r] } := by
        refine ⟨?_, ?_, ?_⟩
        · intro p hp
          simp only [List.getLast?_concat, Option.some.injEq] at hp
          rw [← hp]
        · rw [List.chain'_append]
          refine ⟨hinv.chain, List.chain'_singleton r, ?_⟩
          intro x hx y hy
          simp only [List.head?_cons, Option.mem_def, Option.some.injEq] at hy
          rw [Option.mem_def, hprev, Option.some.injEq] at hx
          subst hx hy
          unfold Linked
          rw [← hid]; exact hmem
        · have h1 := hinv.count
          rw [if_neg hne] at h1
          show st.nodesVisited + ((j : Int) + 1) =
            if st.confirmed ++ [r] = [] then 1
            else ((st.confirmed ++ [r]).length : Int) + (skipSum (st.confirmed ++ [r]) : Nat)
          rw [if_neg (by simp), List.length_append, List.length_singleton,
            skipSum_concat r st.confirmed prev hprev, h1, ← hid, hj]
          push_cast
          omega
      have hI2 : ∀ addrs, WalkInv
          { rpcAddresses := addrs
            nodesVisited := st.nodesVisited + (j + 1)
            lastID := r.id
            totalRelay := (st.totalRelay + r.relayMessageCount) % 2 ^ 64
            totalUptime := wrapInt64 (st.totalUptime + r.uptime)
            confirmed := st.confirmed ++ [r] } := fun addrs => ⟨hI.last, hI.chain, hI.count⟩
      simp only
      split_ifs
      · exact ⟨hI, by simp [hlen], by simp⟩
      · exact ⟨hI2 _, by simp [hlen], by simp⟩
      · exact ⟨hI2 _, by simp [hlen], by simp [hlen]⟩
  · have hi0 : i = 0 := by omega
    subst hi0
    have hnil : st.confirmed = [] := List.length_eq_zero.mp hlen
    have h1 := hinv.count
    rw [if_pos hnil] at h1
    have hI : ∀ addrs, WalkInv
          { rpcAddresses := addrs
            nodesVisited := st.nodesVisited
            lastID := r.id
            totalRelay := (st.totalRelay + r.relayMessageCount) % 2 ^ 64
            totalUptime := wrapInt64 (st.totalUptime + r.uptime)
            confirmed := st.confirmed ++ [r] } := by
      intro addrs
      refine ⟨?_, ?_, ?_⟩
      · intro p hp
        simp only [List.getLast?_concat, Option.some.injEq] at hp
        rw [← hp]
      · simp [hnil]
      · simp [hnil, h1, skipSum]
    simp only [gt_iff_lt, lt_self_iff_false, if_false]
    split_ifs
    · exact ⟨hI _, by simp [hnil], by simp⟩
    · exact ⟨hI _, by simp [hnil], by simp⟩
    · exact ⟨hI _, by simp [hnil], by simp [hnil]⟩

theorem hopStep_inv (env : Env) (i : Nat) (st : WalkState)
    (hinv : WalkInv st) (hlen : st.confirmed.length = i) :
    WalkInv (hopStep env i st).1 ∧ (hopStep env i st).1.confirmed.length ≤ i + 1 ∧
      ((hopStep env i st).2 = true → (hopStep env i st).1.confirmed.length = i + 1) := by
  unfold hopStep
  cases hq : queryCandidates env i 0 st.rpcAddresses with
  | none => exact ⟨hinv, by simp [hlen], by simp⟩
  | some o =>
    cases o with
    | none => exact ⟨hinv, by simp [hlen], by simp⟩
    | some r => exact confirmHop_inv env i st r hinv hlen

theorem walkLoop_inv (env : Env) (fuel : Nat) : ∀ (i : Nat) (st : WalkState),
    WalkInv st → st.confirmed.length = i →
    WalkInv (walkLoop env fuel i st) ∧ (walkLoop env fuel i st).confirmed.length ≤ i + fuel := by
  induction fuel with
  | zero => intro i st hinv hlen; exact ⟨hinv, by simp [walkLoop, hlen]⟩
  | succ f ih =>
    intro i st hinv hlen
    obtain ⟨h1, h2, h3⟩ := hopStep_inv env i st hinv hlen
    unfold walkLoop
    rcases hs : hopStep env i st with ⟨st1, flag⟩
    rw [hs] at h1 h2 h3
    cases flag with
    | true =>
      obtain ⟨h4, h5⟩ := ih (i + 1) st1 h1 (h3 rfl)
      exact ⟨h4, by simp only at h5 ⊢; omega⟩
    | false => exact ⟨h1, by simp only at h2 ⊢; omega⟩

/-- C7: for a hop budget `n ≥ 0`, when `sampleNodes` confirms `c ≥ 1` nodes, `c ≤ n+1`,
every confirmed answer after the first has the identifier of the previously confirmed
node in its predecessor list, and the returned nodes-visited is `c` plus the sum, over
the confirmations after the first, of the 0-based position of the first occurrence of
the previous identifier in the predecessor list. -/
theorem sampleNodes_visited_count (R : Int) (env : Env) (startKey : Int)
    (initialRPCAddress : String) (n : Int) (st : WalkState) (hn : 0 ≤ n)
    (hrun : sampleNodesState env startKey initialRPCAddress n = Except.ok st)
    (hc : 1 ≤ st.confirmed.length) :
    (st.confirmed.length : Int) ≤ n + 1 ∧
    List.Chain' Linked st.confirmed ∧
    (sampleNodes R env startKey initialRPCAddress n).nodesVisited =
      (st.confirmed.length : Int) + (skipSum st.confirmed : Nat) := by
  have hres : (sampleNodes R env startKey initialRPCAddress n).nodesVisited = st.nodesVisited := by
    unfold sampleNodes; rw [hrun]
  rw [hres]
  unfold sampleNodesState at hrun
  split at hrun
  · simp at hrun
  · simp at hrun
  · simp at hrun
  · split at hrun
    · simp at hrun
    · rename_i a _
      simp only [Except.ok.injEq] at hrun
      have hinit : WalkInv
          { rpcAddresses := [a], nodesVisited := 1, lastID := text16 startKey, totalRelay := 0,
            totalUptime := 0, confirmed := [] } :=
        ⟨by simp, by simp, by simp⟩
      obtain ⟨h1, h2⟩ := walkLoop_inv env (n + 1).toNat 0 _ hinit rfl
      rw [hrun] at h1 h2
      have hne : st.confirmed ≠ [] := by
        intro h; rw [h] at hc; simp at hc
      refine ⟨by omega, h1.chain, ?_⟩
      have := h1.count
      rw [if_neg hne] at this
      exact this

/-- C7 on `unreachableEnv` with hop budget 2: two confirmations, the second of which
finds the previous identifier at position 2, give nodes-visited `2 + 2`. -/
theorem sampleNodes_visited_count_witness :
    (afterSecondHop.confirmed.length : Int) ≤ 2 + 1 ∧
    List.Chain' Linked afterSecondHop.confirmed ∧
    (sampleNodes totalSpace unreachableEnv 5 "http://seed:30003" 2).nodesVisited =
      (afterSecondHop.confirmed.length : Int) + (skipSum afterSecondHop.confirmed : Nat) :=
  sampleNodes_visited_count totalSpace unreachableEnv 5 "http://seed:30003" 2 afterSecondHop
    (by decide) (by decide) (by decide)

/-! ## Choice of the next candidates -/

theorem filterMap_guard (c : Int → Prop) [DecidablePred c] (h : Int → Option String) :
    ∀ l : List Int, (∀ i ∈ l, c i → ∃ a, h i = some a) →
      (l.filterMap (fun i => if c i then h i else none)).map some = (l.filter (fun i => c i)).map h := by
  intro l
  induction l with
  | nil => intro _; rfl
  | cons x xs ih =>
    intro hall
    have ih2 := ih (fun i hi => hall i (List.mem_cons_of_mem _ hi))
    by_cases hx : c x
    · obtain ⟨a, ha⟩ := hall x (List.mem_cons_self _ _) hx
      simp only [List.filterMap_cons, hx, if_true, ha, List.map_cons, List.filter_cons,
        decide_True]
      rw [ih2]
    · simp only [List.filterMap_cons, hx, if_false, List.filter_cons, decide_False]
      exact ih2

/-- C6 (amended): for a successor list of length `s < 2^50` whose addresses all parse,
the next candidate addresses chosen by `sampleNodes` are the successors at those indices
among `mid-1, mid, mid+1` that satisfy `0 < index < s` (index 0 is never chosen), in
increasing index order, where `mid = s - ⌊2√s⌋`. -/
theorem nextCandidates_spec (env : Env) (successors : List Peer)
    (hlen : successors.length < 2 ^ 50)
    (hparse : ∀ p ∈ successors, (tcpAddrToRPCAddr env p.addr).isSome = true) :
    (nextCandidates env successors).map some =
      addressesAt env successors
        ((midIndices ((successors.length : Int) - ⌊2 * Real.sqrt (successors.length : ℝ)⌋)).filter
          (fun i => 0 < i ∧ i < (successors.length : Int))) := by
  unfold nextCandidates addressesAt midIndices
  rw [floor_two_sqrt, ← twoSqrtInt_eq _ hlen]
  simp only
  have hfun : (fun index : Int =>
      if index > 0 ∧ index < (successors.length : Int) then
        match successors[index.toNat]? with
        | some p => tcpAddrToRPCAddr env p.addr
        | none => none
      else none) =
      (fun i : Int => if 0 < i ∧ i < (successors.length : Int) then
        (successors[i.toNat]?).bind (fun p => tcpAddrToRPCAddr env p.addr) else none) := by
    funext i
    split_ifs
    · cases successors[i.toNat]? <;> rfl
    · rfl
  rw [hfun]
  apply filterMap_guard (fun i : Int => 0 < i ∧ i < (successors.length : Int))
  intro i _ hi
  have hlt : i.toNat < successors.length := by omega
  rw [List.getElem?_eq_getElem hlt]
  have := hparse _ (List.getElem_mem hlt)
  simp only [Option.some_bind]
  exact Option.isSome_iff_exists.mp this

/-- C6 (amended) on the five successors of `garbledEnv`. -/
theorem nextCandidates_spec_witness :
    (nextCandidates garbledEnv fiveSuccessors).map some =
      addressesAt garbledEnv fiveSuccessors
        ((midIndices ((fiveSuccessors.length : Int) -
            ⌊2 * Real.sqrt (fiveSuccessors.length : ℝ)⌋)).filter
          (fun i => 0 < i ∧ i < (fiveSuccessors.length : Int))) :=
  nextCandidates_spec garbledEnv fiveSuccessors (by decide) (by decide)

/-- C6, as stated, fails: for the one-element successor list of node `0x10`, whose
address parses, `mid = 1 - ⌊2√1⌋ = -1` and index `0 = mid+1` lies in `[0, 1)`, so the
claimed choice is the successor at index 0; `sampleNodes` chooses no candidate. -/
theorem nextCandidates_skips_index_zero :
    (∀ p ∈ node10.successors, (tcpAddrToRPCAddr ring3Env p.addr).isSome = true) ∧
    addressesAt ring3Env node10.successors
      ((midIndices ((node10.successors.length : Int) -
          ⌊2 * Real.sqrt (node10.successors.length : ℝ)⌋)).filter
        (fun i => 0 ≤ i ∧ i < (node10.successors.length : Int))) = [some "http://n40:30003"] ∧
    nextCandidates ring3Env node10.successors = [] := by
  refine ⟨by decide, ?_, by decide⟩
  have h : ⌊2 * Real.sqrt (node10.successors.length : ℝ)⌋ = 2 := by
    rw [floor_two_sqrt]
    have : Nat.sqrt (4 * node10.successors.length) = 2 :=
      (Nat.eq_sqrt.mpr ⟨by decide, by decide⟩).symm
    rw [this]; rfl
  rw [h]
  decide

/-- C5, as stated, fails: in the three-node ring the walk from key `0x05` with hop
budget 2 does not confirm three nodes over an area of `0x8B`. -/
theorem ring3_walk_not_three :
    ¬ ((sampleNodes 0x100 ring3Env 0x05 "http://seed:30003" 2).nodesVisited = 3 ∧
      (sampleNodes 0x100 ring3Env 0x05 "http://seed:30003" 2).totalArea = some 0x8B ∧
      estimatedTotalNodes 0x100 (sampleNodes 0x100 ring3Env 0x05 "http://seed:30003" 2).nodesVisited
        0x8B = 5) := by
  decide

/-- C5 (amended): in the three-node ring `0x10`, `0x40`, `0x90` with ring size `0x100`,
`sampleNodes` started at key `0x05` with hop budget 2 confirms node `0x10` only, because
a one-element successor list yields no next candidate; it returns nodes-visited `1` and
covered area `0x10 - 0x05 = 0x0B`, and the resulting `estimatedTotalNodes` is
`⌊1·256/11⌋ = 23`. -/
theorem ring3_walk :
    sampleNodesState ring3Env 0x05 "http://seed:30003" 2 =
      Except.ok ⟨[], 1, "10", 7, 100, [node10]⟩ ∧
    sampleNodes 0x100 ring3Env 0x05 "http://seed:30003" 2 = ⟨1, 7, 100, some 0x0B, none⟩ ∧
    estimatedTotalNodes 0x100 1 0x0B = 23 := by
  decide

end NknNodeSampler
